import Mathlib

/-!
Verification of the MayaProject transaction-analytics and approach-selection
core against its specification.  The Python sources are shallowly embedded:
amounts and scores are exact rationals, timestamps are explicit
(year, month, day, time-of-day) tuples with the lexicographic datetime order,
and SQL / pandas aggregations become list computations over an explicit
transaction table.
-/

namespace Maya

/-! ## Timestamps

`datetime` values, as used by the pandas timestamp column and by
`DataFetcher._month_start_date` / `_month_end_date`.  Comparison of Python
datetimes is lexicographic on (year, month, day, time-of-day); `tod` stands
for the whole time-of-day part (a fraction of a day). -/

structure Timestamp where
  y : ℤ
  m : ℤ
  d : ℤ
  tod : ℚ
deriving DecidableEq, Repr

def Timestamp.lexKey (t : Timestamp) : ℤ ×ₗ (ℤ ×ₗ (ℤ ×ₗ ℚ)) :=
  toLex (t.y, toLex (t.m, toLex (t.d, t.tod)))

lemma Timestamp.lexKey_injective : Function.Injective Timestamp.lexKey := by
  intro a b h
  cases a; cases b
  simp only [lexKey, toLex_inj, Prod.mk.injEq] at h
  simp_all

instance : LinearOrder Timestamp :=
  LinearOrder.lift' Timestamp.lexKey Timestamp.lexKey_injective

/-! ## Transactions

One row of the `transactions` table (src/utils/database.py, `_create_tables`).
The stored `year`/`month` columns are derived from the timestamp at insertion
time (`insert_transactions` uses `dt_timestamp.year` / `dt_timestamp.month`),
so they appear here as `ts.y` / `ts.m` rather than as separate fields. -/

structure Txn where
  user_id : String
  ts : Timestamp
  transaction_type : String
  transaction_method : String
  amount : ℚ
  segment_tag : String
deriving DecidableEq, Repr

/-! ## First-occurrence deduplication

Helper mirroring Python `dict` / `Counter` key order: keys appear in order of
first insertion, later duplicates are dropped. -/

def firstDedup {α : Type} [DecidableEq α] : List α → List α
  | [] => []
  | x :: xs => x :: (firstDedup xs).filter (fun a => decide (a ≠ x))

lemma mem_firstDedup {α : Type} [DecidableEq α] {a : α} :
    ∀ {l : List α}, a ∈ firstDedup l ↔ a ∈ l := by
  intro l
  induction l with
  | nil => simp [firstDedup]
  | cons x xs ih =>
    by_cases hax : a = x
    · subst hax; simp [firstDedup]
    · simp [firstDedup, List.mem_filter, ih, hax]

lemma nodup_firstDedup {α : Type} [DecidableEq α] :
    ∀ (l : List α), (firstDedup l).Nodup := by
  intro l
  induction l with
  | nil => simp [firstDedup]
  | cons x xs ih =>
    refine List.Nodup.cons ?_ (List.Nodup.filter _ ih)
    intro hx
    rcases List.mem_filter.1 hx with ⟨-, hne⟩
    simp at hne

lemma firstDedup_sublist {α : Type} [DecidableEq α] :
    ∀ (l : List α), List.Sublist (firstDedup l) l := by
  intro l
  induction l with
  | nil => simp [firstDedup]
  | cons x xs ih =>
    exact List.Sublist.cons₂ x ((List.filter_sublist (firstDedup xs)).trans ih)

/-! ## Sum helpers -/

lemma sum_map_ite_eq_sum_filter (l : List Txn) (p : Txn → Prop) [DecidablePred p]
    (f : Txn → ℚ) :
    (l.map (fun t => if p t then f t else 0)).sum
      = ((l.filter (fun t => decide (p t))).map f).sum := by
  induction l with
  | nil => simp
  | cons x xs ih =>
    by_cases hx : p x <;> simp [hx, ih]

lemma sum_filter_or_disjoint (l : List Txn) (p q : Txn → Bool) (f : Txn → ℚ)
    (h : ∀ a, ¬(p a = true ∧ q a = true)) :
    ((l.filter (fun a => p a || q a)).map f).sum
      = ((l.filter p).map f).sum + ((l.filter q).map f).sum := by
  induction l with
  | nil => simp
  | cons x xs ih =>
    cases hp : p x
    · cases hq : q x
      · simp [List.filter_cons, hp, hq, ih]
      · simp [List.filter_cons, hp, hq, ih]
        ring
    · cases hq : q x
      · simp [List.filter_cons, hp, hq, ih]
        ring
      · exact absurd ⟨hp, hq⟩ (h x)

lemma sum_over_group_keys {κ : Type} [DecidableEq κ] (l : List Txn) (key : Txn → κ)
    (f : Txn → ℚ) :
    ∀ (ks : List κ), ks.Nodup →
      (ks.map (fun k => ((l.filter (fun a => decide (key a = k))).map f).sum)).sum
        = ((l.filter (fun a => decide (key a ∈ ks))).map f).sum := by
  intro ks
  induction ks with
  | nil => simp
  | cons k ks ih =>
    intro hnd
    rcases List.nodup_cons.1 hnd with ⟨hk, hnd'⟩
    have hsplit :
        ((l.filter (fun a => decide (key a ∈ k :: ks))).map f).sum
          = ((l.filter (fun a => decide (key a = k))).map f).sum
            + ((l.filter (fun a => decide (key a ∈ ks))).map f).sum := by
      have hcong : l.filter (fun a => decide (key a ∈ k :: ks))
          = l.filter (fun a => decide (key a = k) || decide (key a ∈ ks)) := by
        apply List.filter_congr
        intro a _
        by_cases h1 : key a = k <;> by_cases h2 : key a ∈ ks <;> simp [h1, h2]
      rw [hcong]
      apply sum_filter_or_disjoint
      intro a ⟨h1, h2⟩
      apply hk
      rw [← of_decide_eq_true h1]
      exact of_decide_eq_true h2
    rw [List.map_cons, List.sum_cons, ih hnd', hsplit]

/-! ## Transaction store: `TransactionDB.get_monthly_profile`

src/utils/database.py, lines 132-177.  The three SQL queries over the
`(user_id, year, month)` partition become list computations:
* basic stats: `SUM(CASE WHEN transaction_type = 'SPEND' THEN amount ELSE 0 END)`
  and `COUNT(CASE WHEN ... THEN 1 END)` per type;
* method breakdown: `GROUP BY transaction_method, transaction_type` with
  `COUNT(*)` and `SUM(amount)` per group (group order is unspecified in SQL;
  first-occurrence order is one admissible order);
* segments: `SELECT DISTINCT segment_tag`, then Python drops falsy tags
  (`if row[0]`) and passes through `list(set(...))`. -/

structure MethodEntry where
  method : String
  type : String
  count : ℕ
  total_amount : ℚ
deriving DecidableEq, Repr

structure ProfileData where
  total_spend : ℚ
  spend_count : ℕ
  total_cash_in : ℚ
  cash_in_count : ℕ
  methods_summary : List MethodEntry
  segments : List String
deriving DecidableEq, Repr

def methodKey (t : Txn) : String × String := (t.transaction_method, t.transaction_type)

def txnPartition (rows : List Txn) (u : String) (y m : ℤ) : List Txn :=
  rows.filter (fun t => decide (t.user_id = u ∧ t.ts.y = y ∧ t.ts.m = m))

def groupRows (part : List Txn) (k : String × String) : List Txn :=
  part.filter (fun t => decide (methodKey t = k))

def get_monthly_profile (rows : List Txn) (u : String) (y m : ℤ) : ProfileData :=
  let part := txnPartition rows u y m
  { total_spend := (part.map (fun t => if t.transaction_type = "SPEND" then t.amount else 0)).sum
    spend_count := (part.filter (fun t => decide (t.transaction_type = "SPEND"))).length
    total_cash_in := (part.map (fun t => if t.transaction_type = "CASH-IN" then t.amount else 0)).sum
    cash_in_count := (part.filter (fun t => decide (t.transaction_type = "CASH-IN"))).length
    methods_summary := (firstDedup (part.map methodKey)).map (fun k =>
      { method := k.1
        type := k.2
        count := (groupRows part k).length
        total_amount := ((groupRows part k).map (·.amount)).sum })
    segments := firstDedup ((part.map (·.segment_tag)).filter (fun s => decide (s ≠ ""))) }

lemma methods_summary_filter_spend (rows : List Txn) (u : String) (y m : ℤ) :
    (((get_monthly_profile rows u y m).methods_summary.filter
        (fun e => decide (e.type = "SPEND"))).map (·.total_amount)).sum
      = (((txnPartition rows u y m).filter
          (fun t => decide (t.transaction_type = "SPEND"))).map (·.amount)).sum := by
  set part := txnPartition rows u y m with hpart
  have hfm :
      (get_monthly_profile rows u y m).methods_summary.filter
          (fun e => decide (e.type = "SPEND"))
        = ((firstDedup (part.map methodKey)).filter
            (fun k => decide (k.2 = "SPEND"))).map (fun k =>
              ({ method := k.1
                 type := k.2
                 count := (groupRows part k).length
                 total_amount := ((groupRows part k).map (·.amount)).sum } : MethodEntry)) := by
    simp only [get_monthly_profile]
    rw [List.filter_map]
    rfl
  rw [hfm, List.map_map]
  have hnd : ((firstDedup (part.map methodKey)).filter
      (fun k => decide (k.2 = "SPEND"))).Nodup :=
    List.Nodup.filter _ (nodup_firstDedup _)
  have hgrp := sum_over_group_keys part methodKey (·.amount)
    ((firstDedup (part.map methodKey)).filter (fun k => decide (k.2 = "SPEND"))) hnd
  have hmc : List.map
      ((fun x : MethodEntry => x.total_amount) ∘ fun k : String × String =>
        ({ method := k.1
           type := k.2
           count := (groupRows part k).length
           total_amount := ((groupRows part k).map (·.amount)).sum } : MethodEntry))
      ((firstDedup (part.map methodKey)).filter (fun k => decide (k.2 = "SPEND")))
    = List.map (fun k => ((part.filter (fun a => decide (methodKey a = k))).map (·.amount)).sum)
      ((firstDedup (part.map methodKey)).filter (fun k => decide (k.2 = "SPEND"))) := by
    apply List.map_congr_left
    intro k _
    simp [groupRows]
  rw [hmc, hgrp]
  apply congrArg
  apply congrArg
  apply List.filter_congr
  intro t ht
  have hiff : (methodKey t ∈ (firstDedup (part.map methodKey)).filter
      (fun k => decide (k.2 = "SPEND"))) ↔ t.transaction_type = "SPEND" := by
    constructor
    · intro hmem
      rcases List.mem_filter.1 hmem with ⟨-, hty⟩
      exact of_decide_eq_true hty
    · intro hty
      refine List.mem_filter.2 ⟨?_, by simp [methodKey, hty]⟩
      exact mem_firstDedup.2 (List.mem_map_of_mem methodKey ht)
  by_cases hc : t.transaction_type = "SPEND" <;> simp [hiff, hc]

/-- C1.  For any stored transaction set and any `user_id`, `year`, `month`, the
monthly profile's `total_spend` is the exact sum of the amounts of that user's
SPEND transactions in the `(user_id, year, month)` partition, symmetrically
`total_cash_in` for CASH-IN, and the sum of `methods_summary` `total_amount`
over SPEND-typed entries equals `total_spend`. -/
theorem get_monthly_profile_conservation (rows : List Txn) (u : String) (y m : ℤ) :
    (get_monthly_profile rows u y m).total_spend
        = (((txnPartition rows u y m).filter
            (fun t => decide (t.transaction_type = "SPEND"))).map (·.amount)).sum
    ∧ (get_monthly_profile rows u y m).total_cash_in
        = (((txnPartition rows u y m).filter
            (fun t => decide (t.transaction_type = "CASH-IN"))).map (·.amount)).sum
    ∧ (((get_monthly_profile rows u y m).methods_summary.filter
          (fun e => decide (e.type = "SPEND"))).map (·.total_amount)).sum
        = (get_monthly_profile rows u y m).total_spend := by
  have h1 : (get_monthly_profile rows u y m).total_spend
      = (((txnPartition rows u y m).filter
          (fun t => decide (t.transaction_type = "SPEND"))).map (·.amount)).sum := by
    simp only [get_monthly_profile]
    exact sum_map_ite_eq_sum_filter _ _ _
  have h2 : (get_monthly_profile rows u y m).total_cash_in
      = (((txnPartition rows u y m).filter
          (fun t => decide (t.transaction_type = "CASH-IN"))).map (·.amount)).sum := by
    simp only [get_monthly_profile]
    exact sum_map_ite_eq_sum_filter _ _ _
  exact ⟨h1, h2, by rw [methods_summary_filter_spend, h1]⟩

/-- C10.  A `(user_id, year, month)` query with no matching transactions yields
zeros, an empty method breakdown and an empty segment list rather than failing,
and the segment list never contains duplicates or empty tags. -/
theorem get_monthly_profile_empty_and_segments (rows : List Txn) (u : String) (y m : ℤ) :
    (txnPartition rows u y m = [] →
        get_monthly_profile rows u y m
          = { total_spend := 0, spend_count := 0, total_cash_in := 0, cash_in_count := 0
              methods_summary := [], segments := [] })
    ∧ (get_monthly_profile rows u y m).segments.Nodup
    ∧ "" ∉ (get_monthly_profile rows u y m).segments := by
  refine ⟨?_, ?_, ?_⟩
  · intro h
    simp [get_monthly_profile, h, firstDedup]
  · exact nodup_firstDedup _
  · intro hmem
    have : ("" : String) ∈ ((txnPartition rows u y m).map (·.segment_tag)).filter
        (fun s => decide (s ≠ "")) := by
      simpa [get_monthly_profile] using mem_firstDedup.1 hmem
    rcases List.mem_filter.1 this with ⟨-, hne⟩
    simp at hne

/-- Witness for C10 at a concrete empty store. -/
theorem get_monthly_profile_empty_witness :
    get_monthly_profile [] "u1" 2025 3
        = { total_spend := 0, spend_count := 0, total_cash_in := 0, cash_in_count := 0
            methods_summary := [], segments := [] }
    ∧ (get_monthly_profile [] "u1" 2025 3).segments.Nodup
    ∧ "" ∉ (get_monthly_profile [] "u1" 2025 3).segments := by
  have h := get_monthly_profile_empty_and_segments [] "u1" 2025 3
  exact ⟨h.1 rfl, h.2.1, h.2.2⟩

/-! ## Python `max` / pandas `idxmax` semantics

Both keep the current best and replace it only when a later element's key is
strictly greater, so the first element attaining the maximum wins. -/

def pyMax {α β : Type} [LinearOrder β] (key : α → β) : α → List α → α
  | x, [] => x
  | x, yy :: ys => if key x < key yy then pyMax key yy ys else pyMax key x ys

lemma pyMax_spec {α β : Type} [LinearOrder β] (key : α → β) :
    ∀ (l : List α) (x : α),
      ∃ l1 l2, x :: l = l1 ++ (pyMax key x l) :: l2
        ∧ (∀ a ∈ l1, key a < key (pyMax key x l))
        ∧ (∀ a ∈ l2, key a ≤ key (pyMax key x l)) := by
  intro l
  induction l with
  | nil =>
    intro x
    exact ⟨[], [], by simp [pyMax]⟩
  | cons yy ys ih =>
    intro x
    by_cases hxy : key x < key yy
    · rcases ih yy with ⟨l1, l2, hdec, h1, h2⟩
      have hres : pyMax key x (yy :: ys) = pyMax key yy ys := by simp [pyMax, hxy]
      have hxlt : key x < key (pyMax key yy ys) := by
        cases l1 with
        | nil =>
          have : yy = pyMax key yy ys := by simpa using congrArg (fun l => l.head?) hdec
          exact this ▸ hxy
        | cons b bs =>
          have hb : b = yy := by have := congrArg (fun l => l.head?) hdec; simp at this; exact this.symm
          exact hxy.trans (hb ▸ h1 b (List.mem_cons_self b bs))
      refine ⟨x :: l1, l2, ?_, ?_, ?_⟩
      · rw [hres, List.cons_append, ← hdec]
      · intro a ha
        rcases List.mem_cons.1 ha with rfl | ha'
        · rw [hres]; exact hxlt
        · rw [hres]; exact h1 a ha'
      · intro a ha; rw [hres]; exact h2 a ha
    · rcases ih x with ⟨l1, l2, hdec, h1, h2⟩
      have hres : pyMax key x (yy :: ys) = pyMax key x ys := by simp [pyMax, hxy]
      have hyx : key yy ≤ key x := le_of_not_lt hxy
      cases l1 with
      | nil =>
        have hx : x = pyMax key x ys := by simpa using congrArg (fun l => l.head?) hdec
        have hys : ys = l2 := by simpa [← hx] using congrArg (fun l => l.tail) hdec
        refine ⟨[], yy :: ys, ?_, by simp, ?_⟩
        · simp [hres, ← hx]
        · intro a ha
          rcases List.mem_cons.1 ha with rfl | ha'
          · rw [hres, ← hx]; exact hyx
          · rw [hres]; exact h2 a (hys ▸ ha')
      | cons b bs =>
        have hb : b = x := by have := congrArg (fun l => l.head?) hdec; simp at this; exact this.symm
        have htl : ys = bs ++ (pyMax key x ys) :: l2 := by
          simpa [hb] using congrArg (fun l => l.tail) hdec
        refine ⟨x :: yy :: bs, l2, ?_, ?_, fun a ha => hres ▸ h2 a ha⟩
        · rw [hres, List.cons_append, List.cons_append, ← htl]
        · intro a ha
          have hxmax : key x < key (pyMax key x (yy :: ys)) := by
            rw [hres]; exact hb ▸ h1 b (by simp [hb])
          rcases List.mem_cons.1 ha with rfl | ha'
          · exact hxmax
          rcases List.mem_cons.1 ha' with rfl | ha''
          · exact lt_of_le_of_lt hyx hxmax
          · rw [hres]; exact h1 a (by simp [hb, ha''])

lemma pyMax_mem {α β : Type} [LinearOrder β] (key : α → β) (l : List α) (x : α) :
    pyMax key x l ∈ x :: l := by
  rcases pyMax_spec key l x with ⟨l1, l2, hdec, -, -⟩
  rw [hdec]
  exact List.mem_append.2 (Or.inr (List.mem_cons_self _ _))

lemma pyMax_le {α β : Type} [LinearOrder β] (key : α → β) (l : List α) (x : α) :
    ∀ a ∈ x :: l, key a ≤ key (pyMax key x l) := by
  rcases pyMax_spec key l x with ⟨l1, l2, hdec, h1, h2⟩
  intro a ha
  rw [hdec] at ha
  rcases List.mem_append.1 ha with ha1 | ha2
  · exact le_of_lt (h1 a ha1)
  rcases List.mem_cons.1 ha2 with rfl | ha3
  · exact le_refl _
  · exact h2 a ha3

/-! ## DataFetcher: month window and per-month data

src/utils/data_fetcher.py.  `_month_start_date` is `datetime(year, month, 1)`
and `_month_end_date` is `datetime(year, month, calendar.monthrange(...)[1])`
— midnight of the last day, so only that day's midnight instant is included.
The pandas mask is `start <= timestamp <= end`. -/

def isLeapYear (y : ℤ) : Bool := y % 4 == 0 && (y % 100 != 0 || y % 400 == 0)

def daysInMonth (y m : ℤ) : ℤ :=
  if m = 2 then (if isLeapYear y then 29 else 28)
  else if m = 4 ∨ m = 6 ∨ m = 9 ∨ m = 11 then 30
  else 31

def month_start_date (y m : ℤ) : Timestamp := ⟨y, m, 1, 0⟩

def month_end_date (y m : ℤ) : Timestamp := ⟨y, m, daysInMonth y m, 0⟩

def inMonthWindow (y m : ℤ) (t : Timestamp) : Bool :=
  decide (month_start_date y m ≤ t) && decide (t ≤ month_end_date y m)

def monthlyRows (rows : List Txn) (y m : ℤ) : List Txn :=
  rows.filter (fun t => inMonthWindow y m t.ts)

/-- Embeds `_monthly_transactions_by_user`: `Counter(monthly_data['user_id'])`, keys
in first-occurrence order. -/
def userCounts (l : List Txn) : List (String × ℕ) :=
  (firstDedup (l.map (·.user_id))).map
    (fun u => (u, (l.filter (fun t => decide (t.user_id = u))).length))

inductive FetchError where
  | userNotFound
  | invalidMonth
deriving DecidableEq, Repr

/-- The `active_users` list before the `[:max_users]` truncation: transaction-count
filter, then (only when a positive spend / cash-in floor is given) the
database-profile spend filter, in dict iteration order. -/
def qualifyingUsers (rows : List Txn) (y m : ℤ) (minT : ℕ) (minS minC : ℚ) :
    List (String × ℕ) :=
  let counts := (userCounts (monthlyRows rows y m)).filter (fun p => decide (minT ≤ p.2))
  if 0 < minS ∨ 0 < minC then
    counts.filter (fun p =>
      decide (minS ≤ (get_monthly_profile rows p.1 y m).total_spend)
        && decide (minC ≤ (get_monthly_profile rows p.1 y m).total_cash_in))
  else counts

/-- Python slicing `l[:max_users]`: `max_users=None` keeps the whole list. -/
def truncOpt {α : Type} : Option ℕ → List α → List α
  | none, l => l
  | some k, l => l.take k

/-- Embeds `DataFetcher.active_users` (src/utils/data_fetcher.py, lines 197-221).
Raises `ValueError` on an out-of-range month, then maps the truncated
qualifying list to bare user ids.  No sorting is performed. -/
def active_users (rows : List Txn) (y m : ℤ) (minT : ℕ) (maxUsers : Option ℕ)
    (minS minC : ℚ) : Except FetchError (List String) :=
  if 1 ≤ m ∧ m ≤ 12 then
    .ok ((truncOpt maxUsers (qualifyingUsers rows y m minT minS minC)).map Prod.fst)
  else .error .invalidMonth

/-- Embeds `DataFetcher.monthly_profile` (lines 134-143): the unknown-user check runs
before the month-range check; both produce sentinel error strings rather than
a normal profile.  The rendered text is downstream of the returned profile
data and not modelled here. -/
def monthly_profile (rows : List Txn) (y m : ℤ) (u : String) :
    Except FetchError ProfileData :=
  if u ∈ rows.map (·.user_id) then
    if 1 ≤ m ∧ m ≤ 12 then .ok (get_monthly_profile rows u y m)
    else .error .invalidMonth
  else .error .userNotFound

/-- The segment of a user's most recent monthly transaction:
`user_rows.loc[user_rows['timestamp'].idxmax()]['segment_tag']`. -/
def latestSegTag (l : List Txn) : Option String :=
  match l with
  | [] => none
  | t :: ts => some ((pyMax (fun x => x.ts) t ts).segment_tag)

def userSegPairs (monthly : List Txn) (active : List String) : List (String × String) :=
  active.filterMap (fun u =>
    (latestSegTag (monthly.filter (fun t => decide (t.user_id = u)))).map (fun s => (u, s)))

/-- Python dict grouping: segment keys in first-insertion order, members in
append order. -/
def groupBySegment (pairs : List (String × String)) : List (String × List String) :=
  (firstDedup (pairs.map Prod.snd)).map
    (fun s => (s, (pairs.filter (fun p => decide (p.2 = s))).map Prod.fst))

/-- Embeds `DataFetcher.get_segment_users` (lines 265-328).  `active_users` is called
with `max_users=None` (no truncation), each active user is assigned the
segment of their latest monthly transaction, users are grouped by that
segment, and only segments with at least `max_users` members are kept, each
truncated to exactly `max_users` members. -/
def get_segment_users (rows : List Txn) (y m : ℤ) (minT : ℕ) (maxU : ℕ)
    (minS minC : ℚ) : Except FetchError (List (String × List String)) :=
  if 1 ≤ m ∧ m ≤ 12 then
    let active := (qualifyingUsers rows y m minT minS minC).map Prod.fst
    let pairs := userSegPairs (monthlyRows rows y m) active
    .ok (((groupBySegment pairs).filter (fun g => decide (maxU ≤ g.2.length))).map
      (fun g => (g.1, g.2.take maxU)))
  else .error .invalidMonth

instance {ε α : Type} [DecidableEq ε] [DecidableEq α] : DecidableEq (Except ε α)
  | .ok a, .ok b => if h : a = b then isTrue (by rw [h]) else isFalse (by simp [h])
  | .ok _, .error _ => isFalse (by simp)
  | .error _, .ok _ => isFalse (by simp)
  | .error e, .error f => if h : e = f then isTrue (by rw [h]) else isFalse (by simp [h])

lemma userCounts_map_fst (l : List Txn) :
    (userCounts l).map Prod.fst = firstDedup (l.map (·.user_id)) := by
  simp only [userCounts, List.map_map]
  exact List.map_id _

lemma qualifyingUsers_sublist (rows : List Txn) (y m : ℤ) (minT : ℕ) (minS minC : ℚ) :
    List.Sublist (qualifyingUsers rows y m minT minS minC)
      (userCounts (monthlyRows rows y m)) := by
  unfold qualifyingUsers
  by_cases hb : 0 < minS ∨ 0 < minC
  · simp only [hb, if_true]
    exact (List.filter_sublist _).trans (List.filter_sublist _)
  · simp only [hb, if_false]
    exact List.filter_sublist _

lemma truncOpt_sublist {α : Type} (mu : Option ℕ) (l : List α) :
    List.Sublist (truncOpt mu l) l := by
  cases mu with
  | none => exact List.Sublist.refl l
  | some k => exact List.take_sublist k l

lemma qualifyingUsers_raise (rows : List Txn) (y m : ℤ) (t1 t2 : ℕ) (minS minC : ℚ)
    (h12 : t1 ≤ t2) :
    qualifyingUsers rows y m t2 minS minC
      = (qualifyingUsers rows y m t1 minS minC).filter (fun p => decide (t2 ≤ p.2)) := by
  unfold qualifyingUsers
  by_cases hb : 0 < minS ∨ 0 < minC
  · simp only [hb, if_true, List.filter_filter]
    apply List.filter_congr
    intro p _
    by_cases h2 : t2 ≤ p.2
    · have h1 := le_trans h12 h2
      simp [h1, h2]
    · simp [h2]
  · simp only [hb, if_false, List.filter_filter]
    apply List.filter_congr
    intro p _
    by_cases h2 : t2 ≤ p.2
    · have h1 := le_trans h12 h2
      simp [h1, h2]
    · simp [h2]

lemma active_users_ok_elim (rows : List Txn) (y m : ℤ) (minT : ℕ) (mu : Option ℕ)
    (minS minC : ℚ) (us : List String)
    (hok : active_users rows y m minT mu minS minC = .ok us) :
    (1 ≤ m ∧ m ≤ 12)
      ∧ us = (truncOpt mu (qualifyingUsers rows y m minT minS minC)).map Prod.fst := by
  by_cases hv : 1 ≤ m ∧ m ≤ 12
  · refine ⟨hv, ?_⟩
    rw [active_users, if_pos hv] at hok
    exact (Except.ok.injEq _ _ ▸ hok).symm
  · rw [active_users, if_neg hv] at hok
    exact absurd hok (by simp)

/-- C3 (amended).  `active_users` performs no sort: it returns the qualifying
users in their original retrieval order (first occurrence in the month's
data), truncated to `max_users`.  With the defaults (no spend floors, no
truncation) membership is exactly "at least `min_transactions` transactions in
the month window"; the scenario output `[u1, u3]` arises only when `u1`
precedes `u3` in the data. -/
theorem active_users_retrieval_order (rows : List Txn) (y m : ℤ) (minT : ℕ)
    (mu : Option ℕ) (minS minC : ℚ) (us : List String)
    (hok : active_users rows y m minT mu minS minC = .ok us) :
    List.Sublist us (firstDedup ((monthlyRows rows y m).map (·.user_id)))
    ∧ (∀ k, mu = some k → us.length ≤ k)
    ∧ (mu = none → minS = 0 → minC = 0 →
        ∀ u, u ∈ us ↔ (u ∈ (monthlyRows rows y m).map (·.user_id)
          ∧ minT ≤ ((monthlyRows rows y m).filter (fun t => decide (t.user_id = u))).length)) := by
  rcases active_users_ok_elim rows y m minT mu minS minC us hok with ⟨-, hus⟩
  refine ⟨?_, ?_, ?_⟩
  · rw [hus, ← userCounts_map_fst]
    exact List.Sublist.map Prod.fst
      ((truncOpt_sublist _ _).trans (qualifyingUsers_sublist rows y m minT minS minC))
  · intro k hk
    rw [hus, hk, List.length_map, truncOpt]
    exact List.length_take_le k _
  · intro hmu hms hmc u
    subst hmu hms hmc
    have hq : qualifyingUsers rows y m minT 0 0
        = (userCounts (monthlyRows rows y m)).filter (fun p => decide (minT ≤ p.2)) := by
      unfold qualifyingUsers
      simp
    rw [hus, truncOpt, hq]
    constructor
    · intro hu
      rcases List.mem_map.1 hu with ⟨p, hp, hp1⟩
      rcases List.mem_filter.1 hp with ⟨hpc, hple⟩
      rcases List.mem_map.1 hpc with ⟨u', hu', hpu⟩
      have hp2 : p = (u', ((monthlyRows rows y m).filter
          (fun t => decide (t.user_id = u'))).length) := hpu.symm
      subst hp2
      cases hp1
      exact ⟨mem_firstDedup.1 hu', of_decide_eq_true hple⟩
    · intro ⟨humem, hcnt⟩
      apply List.mem_map.2
      refine ⟨(u, ((monthlyRows rows y m).filter (fun t => decide (t.user_id = u))).length),
        List.mem_filter.2 ⟨?_, by simpa using hcnt⟩, rfl⟩
      exact List.mem_map.2 ⟨u, mem_firstDedup.2 humem, rfl⟩

/-- Concrete March-2025 transactions used in scenario-style checks. -/
def mkTxn (u : String) (d : ℤ) (ty meth : String) (amt : ℚ) (seg : String) : Txn :=
  { user_id := u
    ts := ⟨2025, 3, d, 0⟩
    transaction_type := ty
    transaction_method := meth
    amount := amt
    segment_tag := seg }

/-- Scenario data with retrieval order u1, u2, u3 and counts u1:3, u2:1, u3:2. -/
def rowsScenarioB : List Txn :=
  [ mkTxn "u1" 1 "SPEND" "qr" 10 "A", mkTxn "u1" 2 "SPEND" "qr" 10 "A",
    mkTxn "u1" 3 "SPEND" "qr" 10 "A", mkTxn "u2" 4 "SPEND" "qr" 10 "A",
    mkTxn "u3" 5 "SPEND" "qr" 10 "A", mkTxn "u3" 6 "SPEND" "qr" 10 "A" ]

/-- The same monthly counts `{u1:3, u2:1, u3:2}` but with u3's transactions
retrieved first. -/
def rowsScenarioBRev : List Txn :=
  [ mkTxn "u3" 5 "SPEND" "qr" 10 "A", mkTxn "u3" 6 "SPEND" "qr" 10 "A",
    mkTxn "u2" 4 "SPEND" "qr" 10 "A", mkTxn "u1" 1 "SPEND" "qr" 10 "A",
    mkTxn "u1" 2 "SPEND" "qr" 10 "A", mkTxn "u1" 3 "SPEND" "qr" 10 "A" ]

/-- Counterexample to C3 as stated: over monthly counts `{u1:3, u2:1, u3:2}`
with `min_transactions = 2`, the query returns `["u3", "u1"]` — transaction
counts 2 then 3, not non-increasing, and not the claimed `["u1", "u3"]`. -/
theorem active_users_not_sorted_by_count :
    active_users rowsScenarioBRev 2025 3 2 (some 1000) 0 0 = .ok ["u3", "u1"]
    ∧ ((monthlyRows rowsScenarioBRev 2025 3).filter
        (fun t => decide (t.user_id = "u3"))).length = 2
    ∧ ((monthlyRows rowsScenarioBRev 2025 3).filter
        (fun t => decide (t.user_id = "u1"))).length = 3
    ∧ ((monthlyRows rowsScenarioBRev 2025 3).filter
        (fun t => decide (t.user_id = "u2"))).length = 1
    ∧ (["u3", "u1"] : List String) ≠ ["u1", "u3"] := by
  refine ⟨by decide, by decide, by decide, by decide, by decide⟩

/-- Witness for C3 (amended) on the scenario data in retrieval order u1, u3. -/
theorem active_users_retrieval_order_witness :
    active_users rowsScenarioB 2025 3 2 (some 1000) 0 0 = .ok ["u1", "u3"]
    ∧ (List.Sublist ["u1", "u3"]
        (firstDedup ((monthlyRows rowsScenarioB 2025 3).map (·.user_id)))
      ∧ (∀ k, (some 1000 : Option ℕ) = some k → (["u1", "u3"] : List String).length ≤ k)
      ∧ ((some 1000 : Option ℕ) = none → (0 : ℚ) = 0 → (0 : ℚ) = 0 →
          ∀ u, u ∈ (["u1", "u3"] : List String)
            ↔ (u ∈ (monthlyRows rowsScenarioB 2025 3).map (·.user_id)
              ∧ 2 ≤ ((monthlyRows rowsScenarioB 2025 3).filter
                  (fun t => decide (t.user_id = u))).length))) :=
  ⟨by decide, active_users_retrieval_order rowsScenarioB 2025 3 2 (some 1000) 0 0
    ["u1", "u3"] (by decide)⟩

/-- C8 (amended).  Raising `min_transactions` shrinks the qualifying list, so
whenever the smaller-threshold query is not truncated by `max_users` the
larger-threshold result is a subset of it.  (With truncation this fails, see
the counterexample.) -/
theorem active_users_min_transactions_monotone (rows : List Txn) (y m : ℤ)
    (t1 t2 : ℕ) (mu : Option ℕ) (minS minC : ℚ) (us1 us2 : List String)
    (h12 : t1 ≤ t2)
    (hfit : ∀ k, mu = some k → (qualifyingUsers rows y m t1 minS minC).length ≤ k)
    (h1 : active_users rows y m t1 mu minS minC = .ok us1)
    (h2 : active_users rows y m t2 mu minS minC = .ok us2) :
    ∀ u ∈ us2, u ∈ us1 := by
  rcases active_users_ok_elim rows y m t1 mu minS minC us1 h1 with ⟨-, hus1⟩
  rcases active_users_ok_elim rows y m t2 mu minS minC us2 h2 with ⟨-, hus2⟩
  have hq2 : qualifyingUsers rows y m t2 minS minC
      = (qualifyingUsers rows y m t1 minS minC).filter (fun p => decide (t2 ≤ p.2)) :=
    qualifyingUsers_raise rows y m t1 t2 minS minC h12
  have htr1 : truncOpt mu (qualifyingUsers rows y m t1 minS minC)
      = qualifyingUsers rows y m t1 minS minC := by
    cases mu with
    | none => rfl
    | some k => exact List.take_of_length_le (hfit k rfl)
  have htr2 : truncOpt mu (qualifyingUsers rows y m t2 minS minC)
      = qualifyingUsers rows y m t2 minS minC := by
    cases mu with
    | none => rfl
    | some k =>
      apply List.take_of_length_le
      calc (qualifyingUsers rows y m t2 minS minC).length
          ≤ (qualifyingUsers rows y m t1 minS minC).length := by
            rw [hq2]; exact List.length_filter_le _ _
        _ ≤ k := hfit k rfl
  intro u hu
  rw [hus2, htr2, hq2] at hu
  rcases List.mem_map.1 hu with ⟨p, hp, hp1⟩
  rw [hus1, htr1]
  exact List.mem_map.2 ⟨p, (List.mem_filter.1 hp).1, hp1⟩

/-- Two users, u1 (2 transactions, retrieved first) and u2 (3 transactions). -/
def rowsTrunc : List Txn :=
  [ mkTxn "u1" 1 "SPEND" "qr" 10 "A", mkTxn "u1" 2 "SPEND" "qr" 10 "A",
    mkTxn "u2" 3 "SPEND" "qr" 10 "A", mkTxn "u2" 4 "SPEND" "qr" 10 "A",
    mkTxn "u2" 5 "SPEND" "qr" 10 "A" ]

/-- Counterexample to C8 as stated: with `max_users = 1`, raising
`min_transactions` from 1 to 3 changes the result from `["u1"]` to `["u2"]`,
which is not a subset of `["u1"]`. -/
theorem active_users_monotone_truncation_cex :
    active_users rowsTrunc 2025 3 1 (some 1) 0 0 = .ok ["u1"]
    ∧ active_users rowsTrunc 2025 3 3 (some 1) 0 0 = .ok ["u2"]
    ∧ "u2" ∉ (["u1"] : List String) := by
  refine ⟨by decide, by decide, by decide⟩

/-- Witness for C8 (amended) on the same data without truncation: u2 is in
the min_transactions=3 result and, by the theorem, also in the
min_transactions=1 result. -/
theorem active_users_min_transactions_monotone_witness :
    "u2" ∈ (["u1", "u2"] : List String) :=
  active_users_min_transactions_monotone rowsTrunc 2025 3 1 3 none 0 0
    ["u1", "u2"] ["u2"] (by decide) (fun k hk => by cases hk) (by decide) (by decide)
    "u2" (by decide)

/-- C9 (amended).  For an out-of-range month no aggregation query returns a
normal result: `active_users` and `get_segment_users` fail with the
invalid-month condition unconditionally, while `monthly_profile` checks the
user first — it reports invalid-month only for a known `user_id` and
user-not-found otherwise. -/
theorem invalid_month_fails (rows : List Txn) (y m : ℤ) (u : String) (minT : ℕ)
    (mu : Option ℕ) (minS minC : ℚ) (maxU : ℕ) (hm : m < 1 ∨ 12 < m) :
    (∀ p, monthly_profile rows y m u ≠ .ok p)
    ∧ (u ∈ rows.map (·.user_id) → monthly_profile rows y m u = .error .invalidMonth)
    ∧ active_users rows y m minT mu minS minC = .error .invalidMonth
    ∧ get_segment_users rows y m minT maxU minS minC = .error .invalidMonth := by
  have hv : ¬(1 ≤ m ∧ m ≤ 12) := by omega
  refine ⟨?_, ?_, ?_, ?_⟩
  · intro p
    by_cases hu : u ∈ rows.map (·.user_id) <;> simp [monthly_profile, hu, hv]
  · intro hu
    simp [monthly_profile, hu, hv]
  · simp [active_users, hv]
  · simp [get_segment_users, hv]

/-- A one-row store for the invalid-month witness. -/
def rowsOneUser : List Txn := [mkTxn "u1" 5 "SPEND" "qr" 10 "A"]

/-- Counterexample to C9 as stated: with an unknown user and month 13 the
profile query fails with the user-not-found condition, not invalid-month. -/
theorem invalid_month_unknown_user_cex :
    monthly_profile ([] : List Txn) 2025 13 "ghost" = .error .userNotFound
    ∧ FetchError.userNotFound ≠ FetchError.invalidMonth := by
  refine ⟨by decide, by decide⟩

/-- Witness for C9 (amended) at month 13. -/
theorem invalid_month_fails_witness :
    (∀ p, monthly_profile rowsOneUser 2025 13 "u1" ≠ .ok p)
    ∧ monthly_profile rowsOneUser 2025 13 "u1" = .error .invalidMonth
    ∧ active_users rowsOneUser 2025 13 3 (some 1000) 0 0 = .error .invalidMonth
    ∧ get_segment_users rowsOneUser 2025 13 3 50 0 0 = .error .invalidMonth := by
  have h := invalid_month_fails rowsOneUser 2025 13 "u1" 3 (some 1000) 0 0 50
    (Or.inr (by decide))
  exact ⟨h.1, h.2.1 (by decide), h.2.2.1, h.2.2.2⟩

lemma userSegPairs_fst_sublist (monthly : List Txn) (active : List String) :
    List.Sublist ((userSegPairs monthly active).map Prod.fst) active := by
  induction active with
  | nil => simp [userSegPairs]
  | cons u us ih =>
    rw [userSegPairs, List.filterMap_cons]
    cases hl : latestSegTag (monthly.filter (fun t => decide (t.user_id = u))) with
    | none => exact List.Sublist.cons u (by simpa [userSegPairs] using ih)
    | some s => exact List.Sublist.cons₂ u (by simpa [userSegPairs] using ih)

lemma userSegPairs_mem (monthly : List Txn) (active : List String) (u s : String)
    (h : (u, s) ∈ userSegPairs monthly active) :
    u ∈ active
      ∧ latestSegTag (monthly.filter (fun t => decide (t.user_id = u))) = some s := by
  rcases List.mem_filterMap.1 h with ⟨a, ha, hfa⟩
  cases hl : latestSegTag (monthly.filter (fun t => decide (t.user_id = a))) with
  | none => rw [hl] at hfa; cases hfa
  | some s' =>
    rw [hl] at hfa
    have h1 : a = u := congrArg Prod.fst (Option.some.inj hfa)
    have h2 : s' = s := congrArg Prod.snd (Option.some.inj hfa)
    subst h1; subst h2
    exact ⟨ha, hl⟩

lemma nodup_fst_unique {pairs : List (String × String)}
    (hnd : (pairs.map Prod.fst).Nodup) {u s1 s2 : String} :
    (u, s1) ∈ pairs → (u, s2) ∈ pairs → s1 = s2 := by
  induction pairs with
  | nil => intro h; cases h
  | cons p ps ih =>
    intro h1 h2
    rw [List.map_cons, List.nodup_cons] at hnd
    rcases List.mem_cons.1 h1 with he1 | ht1 <;> rcases List.mem_cons.1 h2 with he2 | ht2
    · rw [← he1] at he2
      exact (congrArg Prod.snd he2).symm
    · have hpu : p.1 = u := (congrArg Prod.fst he1).symm
      rw [hpu] at hnd
      exact absurd (List.mem_map_of_mem Prod.fst ht2) hnd.1
    · have hpu : p.1 = u := (congrArg Prod.fst he2).symm
      rw [hpu] at hnd
      exact absurd (List.mem_map_of_mem Prod.fst ht1) hnd.1
    · exact ih hnd.2 ht1 ht2

lemma latestSegTag_spec (l : List Txn) (s : String) (h : latestSegTag l = some s) :
    ∃ t ∈ l, t.segment_tag = s ∧ ∀ t' ∈ l, t'.ts ≤ t.ts := by
  cases l with
  | nil => cases h
  | cons t ts =>
    refine ⟨pyMax (fun x => x.ts) t ts, pyMax_mem _ _ _, Option.some.inj h, ?_⟩
    exact pyMax_le (fun x => x.ts) ts t

lemma qualifying_fst_nodup (rows : List Txn) (y m : ℤ) (minT : ℕ) (minS minC : ℚ) :
    ((qualifyingUsers rows y m minT minS minC).map Prod.fst).Nodup := by
  have hsub : List.Sublist ((qualifyingUsers rows y m minT minS minC).map Prod.fst)
      ((userCounts (monthlyRows rows y m)).map Prod.fst) :=
    List.Sublist.map Prod.fst (qualifyingUsers_sublist rows y m minT minS minC)
  rw [userCounts_map_fst] at hsub
  exact List.Nodup.sublist hsub (nodup_firstDedup _)

/-- C4.  Segment grouping assigns each active user the tag of their latest
monthly transaction; only segments reaching `max_users` members survive, each
truncated to exactly `max_users` members, so every returned list has exactly
`max_users` entries and no user appears under two different segments. -/
theorem get_segment_users_partition_spec (rows : List Txn) (y m : ℤ) (minT : ℕ)
    (maxU : ℕ) (minS minC : ℚ) (groups : List (String × List String))
    (hok : get_segment_users rows y m minT maxU minS minC = .ok groups) :
    (∀ g ∈ groups, g.2.length = maxU)
    ∧ (∀ g1 ∈ groups, ∀ g2 ∈ groups, ∀ u : String, u ∈ g1.2 → u ∈ g2.2 → g1.1 = g2.1)
    ∧ (∀ g ∈ groups, ∀ u ∈ g.2, ∃ t ∈ monthlyRows rows y m, t.user_id = u
        ∧ t.segment_tag = g.1
        ∧ ∀ t' ∈ monthlyRows rows y m, t'.user_id = u → t'.ts ≤ t.ts) := by
  by_cases hv : 1 ≤ m ∧ m ≤ 12
  case neg =>
    rw [get_segment_users, if_neg hv] at hok
    exact absurd hok (by simp)
  rw [get_segment_users, if_pos hv] at hok
  set active := (qualifyingUsers rows y m minT minS minC).map Prod.fst with hactive
  set pairs := userSegPairs (monthlyRows rows y m) active with hpairs
  have hgroups : groups = ((groupBySegment pairs).filter
      (fun g => decide (maxU ≤ g.2.length))).map (fun g => (g.1, g.2.take maxU)) :=
    (Except.ok.injEq _ _ ▸ hok).symm
  have hdecomp : ∀ g ∈ groups, ∃ s : String,
      g = (s, ((pairs.filter (fun p => decide (p.2 = s))).map Prod.fst).take maxU)
        ∧ maxU ≤ ((pairs.filter (fun p => decide (p.2 = s))).map Prod.fst).length := by
    intro g hg
    rw [hgroups] at hg
    rcases List.mem_map.1 hg with ⟨g0, hg0, hgeq⟩
    rcases List.mem_filter.1 hg0 with ⟨hg0m, hlen⟩
    rcases List.mem_map.1 hg0m with ⟨s, -, hseq⟩
    refine ⟨s, ?_, ?_⟩
    · rw [← hgeq, ← hseq]
    · rw [← hseq] at hlen
      exact of_decide_eq_true hlen
  have hmem_pairs : ∀ g ∈ groups, ∀ u ∈ g.2, (u, g.1) ∈ pairs := by
    intro g hg u hu
    rcases hdecomp g hg with ⟨s, hgeq, -⟩
    rw [hgeq] at hu ⊢
    have hu' : u ∈ (pairs.filter (fun p => decide (p.2 = s))).map Prod.fst :=
      (List.take_sublist _ _).subset hu
    rcases List.mem_map.1 hu' with ⟨p, hp, hp1⟩
    rcases List.mem_filter.1 hp with ⟨hpm, hps⟩
    have : p = (u, s) := by
      rcases p with ⟨p1, p2⟩
      rw [Prod.mk.injEq]
      exact ⟨hp1, of_decide_eq_true hps⟩
    exact this ▸ hpm
  have hnd : (pairs.map Prod.fst).Nodup :=
    List.Nodup.sublist (userSegPairs_fst_sublist _ _)
      (qualifying_fst_nodup rows y m minT minS minC)
  refine ⟨?_, ?_, ?_⟩
  · intro g hg
    rcases hdecomp g hg with ⟨s, hgeq, hlen⟩
    rw [hgeq]
    simpa using hlen
  · intro g1 hg1 g2 hg2 u hu1 hu2
    exact nodup_fst_unique hnd (hmem_pairs g1 hg1 u hu1) (hmem_pairs g2 hg2 u hu2)
  · intro g hg u hu
    have hp := hmem_pairs g hg u hu
    rcases userSegPairs_mem _ _ _ _ hp with ⟨-, hlatest⟩
    rcases latestSegTag_spec _ _ hlatest with ⟨t, htmem, htag, hmax⟩
    rcases List.mem_filter.1 htmem with ⟨htm, htu⟩
    refine ⟨t, htm, of_decide_eq_true htu, htag, ?_⟩
    intro t' ht' ht'u
    exact hmax t' (List.mem_filter.2 ⟨ht', decide_eq_true ht'u⟩)

/-- Two active users whose latest March transactions share segment "A". -/
def rowsSegmented : List Txn :=
  [ mkTxn "u1" 1 "SPEND" "qr" 10 "A", mkTxn "u2" 2 "SPEND" "qr" 10 "A" ]

/-- Witness for C4 at a concrete grouping with `max_users = 2`. -/
theorem get_segment_users_partition_witness :
    (∀ g ∈ [("A", ["u1", "u2"])], (g.2 : List String).length = 2)
    ∧ (∀ g1 ∈ [("A", ["u1", "u2"])], ∀ g2 ∈ [("A", ["u1", "u2"])],
        ∀ u : String, u ∈ g1.2 → u ∈ g2.2 → g1.1 = g2.1)
    ∧ (∀ g ∈ [("A", ["u1", "u2"])], ∀ u ∈ g.2,
        ∃ t ∈ monthlyRows rowsSegmented 2025 3, t.user_id = u
          ∧ t.segment_tag = g.1
          ∧ ∀ t' ∈ monthlyRows rowsSegmented 2025 3, t'.user_id = u → t'.ts ≤ t.ts) :=
  get_segment_users_partition_spec rowsSegmented 2025 3 1 2 0 0
    [("A", ["u1", "u2"])] (by decide)

/-! ## Candidate scorer and per-user selector

`ReportGenerator._best_approach` (src/utils/report_generator.py, lines
53-80).  One candidate per approach, in template-dict declaration order.  The
generation, ethics and embedding collaborators are abstracted into the
recorded fields: `ethical_flag` is the classifier's label for `output_text`,
and `raw_similarity` is the cosine the embedding collaborator yields for
`(template, output_text)` — the value `similarity_score` would compute. -/

structure Candidate where
  approach : String
  ethical_flag : String
  output_text : String
  raw_similarity : ℚ
deriving DecidableEq, Repr

/-- Lines 66-74: unsafe candidates are forced to `-1.0`; otherwise the
computed cosine is used.  There is no special case for empty output. -/
def candidateSimilarity (c : Candidate) : ℚ :=
  if c.ethical_flag ≠ "Safe" then -1 else c.raw_similarity

/-- The selection loop: `best_similarity` starts at `float('-inf')` (below
every real value, hence `none` here) and a candidate replaces the incumbent
only when its similarity is strictly greater. -/
def selBest : List Candidate → Option (String × ℚ) → Option (String × ℚ)
  | [], acc => acc
  | c :: rest, acc =>
    match acc with
    | none => selBest rest (some (c.approach, candidateSimilarity c))
    | some (a, b) =>
      if b < candidateSimilarity c then
        selBest rest (some (c.approach, candidateSimilarity c))
      else selBest rest (some (a, b))

/-- Python `return chosen_approach or "chain_of_thought"`: the `or` falls through
on falsy values (`None` or the empty string). -/
def best_approach (cs : List Candidate) : String :=
  match selBest cs none with
  | none => "chain_of_thought"
  | some (a, _) => if a = "" then "chain_of_thought" else a

lemma selBest_some_mono :
    ∀ (cs : List Candidate) (a : String) (b : ℚ),
      ∃ p, selBest cs (some (a, b)) = some p ∧ b ≤ p.2 := by
  intro cs
  induction cs with
  | nil => exact fun a b => ⟨(a, b), rfl, le_refl b⟩
  | cons c rest ih =>
    intro a b
    by_cases hlt : b < candidateSimilarity c
    · rcases ih c.approach (candidateSimilarity c) with ⟨p, hp, hle⟩
      exact ⟨p, by simp [selBest, hlt, hp], le_of_lt (lt_of_lt_of_le hlt hle)⟩
    · rcases ih a b with ⟨p, hp, hle⟩
      exact ⟨p, by simp [selBest, hlt, hp], hle⟩

lemma selBest_origin :
    ∀ (cs : List Candidate) (acc : Option (String × ℚ)) (p : String × ℚ),
      selBest cs acc = some p →
        acc = some p ∨ ∃ c ∈ cs, p = (c.approach, candidateSimilarity c) := by
  intro cs
  induction cs with
  | nil => exact fun acc p h => Or.inl h
  | cons c rest ih =>
    intro acc p h
    cases acc with
    | none =>
      rw [selBest] at h
      rcases ih _ p h with hl | ⟨c', hc', hp⟩
      · exact Or.inr ⟨c, List.mem_cons_self c rest, (Option.some.inj hl).symm⟩
      · exact Or.inr ⟨c', List.mem_cons_of_mem c hc', hp⟩
    | some q =>
      rcases q with ⟨a, b⟩
      rw [selBest] at h
      by_cases hlt : b < candidateSimilarity c
      · rw [if_pos hlt] at h
        rcases ih _ p h with hl | ⟨c', hc', hp⟩
        · exact Or.inr ⟨c, List.mem_cons_self c rest, (Option.some.inj hl).symm⟩
        · exact Or.inr ⟨c', List.mem_cons_of_mem c hc', hp⟩
      · rw [if_neg hlt] at h
        rcases ih _ p h with hl | ⟨c', hc', hp⟩
        · exact Or.inl hl
        · exact Or.inr ⟨c', List.mem_cons_of_mem c hc', hp⟩

lemma selBest_ge :
    ∀ (cs : List Candidate) (acc : Option (String × ℚ)) (p : String × ℚ),
      selBest cs acc = some p → ∀ c ∈ cs, candidateSimilarity c ≤ p.2 := by
  intro cs
  induction cs with
  | nil => intro acc p h c hc; cases hc
  | cons c0 rest ih =>
    intro acc p h c hc
    have hhead : ∀ (a : String) (b : ℚ),
        selBest rest (some (a, b)) = some p → candidateSimilarity c0 ≤ b →
          candidateSimilarity c0 ≤ p.2 := by
      intro a b hb hle
      rcases selBest_some_mono rest a b with ⟨p', hp', hle'⟩
      rw [hb] at hp'
      exact le_trans hle (le_of_le_of_eq hle' (congrArg Prod.snd (Option.some.inj hp')).symm)
    rcases List.mem_cons.1 hc with rfl | htail
    · cases acc with
      | none =>
        rw [selBest] at h
        exact hhead _ _ h (le_refl _)
      | some q =>
        rcases q with ⟨a, b⟩
        rw [selBest] at h
        by_cases hlt : b < candidateSimilarity c
        · rw [if_pos hlt] at h
          exact hhead _ _ h (le_refl _)
        · rw [if_neg hlt] at h
          exact hhead _ _ h (le_of_not_lt hlt)
    · cases acc with
      | none =>
        rw [selBest] at h
        exact ih _ p h c htail
      | some q =>
        rcases q with ⟨a, b⟩
        rw [selBest] at h
        by_cases hlt : b < candidateSimilarity c0
        · rw [if_pos hlt] at h
          exact ih _ p h c htail
        · rw [if_neg hlt] at h
          exact ih _ p h c htail

lemma selBest_stay_at_floor :
    ∀ (rest : List Candidate) (a : String),
      (∀ c ∈ rest, candidateSimilarity c ≤ -1) →
        selBest rest (some (a, -1)) = some (a, -1) := by
  intro rest
  induction rest with
  | nil => intro a _; rfl
  | cons c cs ih =>
    intro a hall
    have hc : candidateSimilarity c ≤ -1 := hall c (List.mem_cons_self c cs)
    rw [selBest, if_neg (not_lt.2 hc)]
    exact ih a (fun c' hc' => hall c' (List.mem_cons_of_mem c hc'))

/-- C2 (amended).  Unsafe candidates are scored `-1.0`, so whenever some
candidate is Safe with cosine strictly above `-1.0` the selector returns an
approach whose candidate is Safe.  When every candidate is unsafe, however,
the selector returns the first approach in declaration order (the first
candidate beats `-inf` and later `-1.0` scores never strictly exceed it) —
the `chain_of_thought` fallback is not reached. -/
theorem best_approach_safe_selection (cs : List Candidate)
    (hne : ∀ c ∈ cs, c.approach ≠ "") :
    ((∃ c ∈ cs, c.ethical_flag = "Safe" ∧ -1 < c.raw_similarity) →
        ∃ c ∈ cs, c.approach = best_approach cs ∧ c.ethical_flag = "Safe")
    ∧ (∀ c0 rest, cs = c0 :: rest → (∀ c ∈ cs, c.ethical_flag ≠ "Safe") →
        best_approach cs = c0.approach) := by
  constructor
  · intro ⟨c0, hc0, hsafe, hraw⟩
    have hsim0 : candidateSimilarity c0 = c0.raw_similarity := by
      simp [candidateSimilarity, hsafe]
    rcases hsel : selBest cs none with - | p
    · have hnil : cs = [] := by
        cases hcs : cs with
        | nil => rfl
        | cons chead ctail =>
          rw [hcs, selBest] at hsel
          rcases selBest_some_mono ctail chead.approach (candidateSimilarity chead) with
            ⟨q, hq, -⟩
          rw [hq] at hsel
          cases hsel
      rw [hnil] at hc0
      cases hc0
    · have hge : -1 < p.2 := by
        have := selBest_ge cs none p hsel c0 hc0
        rw [hsim0] at this
        exact lt_of_lt_of_le hraw this
      rcases selBest_origin cs none p hsel with hl | ⟨c, hc, hpc⟩
      · cases hl
      have hcsafe : c.ethical_flag = "Safe" := by
        by_contra hun
        have hm1 : candidateSimilarity c = -1 := by simp [candidateSimilarity, hun]
        rw [hpc] at hge
        simp only [hm1] at hge
        exact absurd hge (lt_irrefl _)
      refine ⟨c, hc, ?_, hcsafe⟩
      rw [best_approach, hsel, hpc]
      exact (if_neg (hne c hc)).symm
  · intro c0 rest hcs hall
    have hsim : ∀ c ∈ cs, candidateSimilarity c = -1 := by
      intro c hc
      simp [candidateSimilarity, hall c hc]
    rw [best_approach, hcs, selBest]
    have hstay : selBest rest (some (c0.approach, candidateSimilarity c0))
        = some (c0.approach, -1) := by
      rw [hsim c0 (hcs ▸ List.mem_cons_self c0 rest)]
      exact selBest_stay_at_floor rest c0.approach
        (fun c hc => le_of_eq (hsim c (hcs ▸ List.mem_cons_of_mem c0 hc)))
    rw [hstay]
    exact if_neg (hne c0 (hcs ▸ List.mem_cons_self c0 rest))

/-- Three candidates, all flagged unsafe. -/
def unsafeCands : List Candidate :=
  [ { approach := "zero_shot", ethical_flag := "Unsafe", output_text := "bad1"
      raw_similarity := 1 }
  , { approach := "few_shot", ethical_flag := "Unsafe", output_text := "bad2"
      raw_similarity := 0 }
  , { approach := "chain_of_thought", ethical_flag := "Unsafe", output_text := "bad3"
      raw_similarity := 0 } ]

/-- Counterexample to C2 as stated: with every candidate unsafe the selector
returns `zero_shot`, the first approach, not the claimed `chain_of_thought`
fallback. -/
theorem best_approach_all_unsafe_cex :
    (∀ c ∈ unsafeCands, c.ethical_flag ≠ "Safe")
    ∧ best_approach unsafeCands = "zero_shot"
    ∧ "zero_shot" ≠ "chain_of_thought" := by
  refine ⟨by decide, by decide, by decide⟩

/-- An unsafe first candidate followed by safe ones. -/
def mixedCands : List Candidate :=
  [ { approach := "zero_shot", ethical_flag := "Unsafe", output_text := "bad"
      raw_similarity := 1 }
  , { approach := "few_shot", ethical_flag := "Safe", output_text := "good"
      raw_similarity := 1 }
  , { approach := "chain_of_thought", ethical_flag := "Safe", output_text := "fine"
      raw_similarity := 0 } ]

/-- Witness for C2 (amended): with a Safe candidate above `-1.0` present, the
selected approach belongs to a Safe candidate. -/
theorem best_approach_safe_selection_witness :
    ∃ c ∈ mixedCands, c.approach = best_approach mixedCands
      ∧ c.ethical_flag = "Safe" :=
  (best_approach_safe_selection mixedCands (by decide)).1 (by decide)

/-- C7 (amended).  The candidate score depends only on the ethical flag and
on the cosine the embedding collaborator returns: an empty `output_text` gets
no special treatment — it is forced to `-1.0` exactly when flagged unsafe,
like any other text. -/
theorem candidate_similarity_flag_only (a1 a2 f o1 o2 : String) (s : ℚ) :
    candidateSimilarity { approach := a1, ethical_flag := f, output_text := o1
                          raw_similarity := s }
        = candidateSimilarity { approach := a2, ethical_flag := f, output_text := o2
                                raw_similarity := s }
    ∧ (f = "Safe" →
        candidateSimilarity { approach := a1, ethical_flag := f, output_text := o1
                              raw_similarity := s } = s)
    ∧ (f ≠ "Safe" →
        candidateSimilarity { approach := a1, ethical_flag := f, output_text := o1
                              raw_similarity := s } = -1) := by
  refine ⟨rfl, ?_, ?_⟩
  · intro hf
    simp [candidateSimilarity, hf]
  · intro hf
    simp [candidateSimilarity, hf]

/-- Counterexample to C7 as stated: a Safe candidate with empty `output_text`
is scored with the embedding collaborator's cosine (here `1/2`), not `-1.0`,
and an empty-output candidate can win the comparison against a candidate with
a real cosine score. -/
theorem empty_output_similarity_cex :
    candidateSimilarity { approach := "zero_shot", ethical_flag := "Safe"
                          output_text := "", raw_similarity := 0 } = 0
    ∧ (0 : ℚ) ≠ -1
    ∧ best_approach
        [ { approach := "zero_shot", ethical_flag := "Safe", output_text := ""
            raw_similarity := 1 }
        , { approach := "few_shot", ethical_flag := "Safe", output_text := "real text"
            raw_similarity := 0 } ] = "zero_shot" := by
  refine ⟨by decide, by decide, by decide⟩

/-- Witness for C7 (amended) at concrete flags. -/
theorem candidate_similarity_flag_only_witness :
    candidateSimilarity { approach := "zero_shot", ethical_flag := "Safe"
                          output_text := "", raw_similarity := 0 }
        = candidateSimilarity { approach := "few_shot", ethical_flag := "Safe"
                                output_text := "xyz", raw_similarity := 0 }
    ∧ candidateSimilarity { approach := "zero_shot", ethical_flag := "Safe"
                            output_text := "", raw_similarity := 0 } = 0 := by
  have h := candidate_similarity_flag_only "zero_shot" "few_shot" "Safe" "" "xyz" 0
  exact ⟨h.1, h.2.1 rfl⟩

/-! ## Segment evaluator: `prompt_evaluation` (src/utils/prompt_eval.py)

Per `(segment, component, approach)` the loop records one result per user
(lines 89-131); the aggregation pass (lines 140-168) turns running sums into
`success_rate`, success-only averages and the within-segment similarity.  The
TF-IDF vectorization and `cosine_similarity` are external library
collaborators, abstracted as a similarity matrix `simM outs i j` over the
collected output list. -/

structure EvalRecord where
  success : Bool
  response_time : ℚ
  cost : ℚ
  output : String
deriving DecidableEq, Repr

structure SegmentMetric where
  success_rate : ℚ
  avg_response_time : ℚ
  avg_cost : ℚ
  within_segment_similarity : ℚ
deriving DecidableEq, Repr

def successRecords (rs : List EvalRecord) : List EvalRecord :=
  rs.filter (·.success)

/-- Outputs kept for similarity analysis: appended only under
`if success:` and `if output_text:` (line 129), i.e. successful and
non-empty. -/
def collectedOutputs (rs : List EvalRecord) : List String :=
  (rs.filter (fun r => r.success && decide (r.output ≠ ""))).map (·.output)

/-- The value `np.sum(similarity_matrix)` over the full n×n matrix. -/
def matrixSum (simM : List String → ℕ → ℕ → ℚ) (outs : List String) : ℚ :=
  ∑ i in Finset.range outs.length, ∑ j in Finset.range outs.length, simM outs i j

/-- Aggregation per `(segment, component, approach)` (lines 140-168). -/
def aggregateMetric (simM : List String → ℕ → ℕ → ℚ) (rs : List EvalRecord) :
    SegmentMetric :=
  let total := rs.length
  let outs := collectedOutputs rs
  if 0 < (successRecords rs).length then
    { success_rate := ((successRecords rs).length : ℚ) / (total : ℚ)
      avg_response_time :=
        ((successRecords rs).map (·.response_time)).sum / ((successRecords rs).length : ℚ)
      avg_cost := ((successRecords rs).map (·.cost)).sum / ((successRecords rs).length : ℚ)
      within_segment_similarity :=
        if 1 < outs.length then
          (matrixSum simM outs - (outs.length : ℚ))
            / ((outs.length : ℚ) * ((outs.length : ℚ) - 1))
        else 0 }
  else
    { success_rate := 0, avg_response_time := 0, avg_cost := 0
      within_segment_similarity := 0 }

lemma collected_pos_succ_pos (rs : List EvalRecord)
    (h : 0 < (collectedOutputs rs).length) : 0 < (successRecords rs).length := by
  rw [collectedOutputs, List.length_map] at h
  obtain ⟨r, hr⟩ := List.exists_mem_of_length_pos h
  rcases List.mem_filter.1 hr with ⟨hrm, hrp⟩
  have hrp' : r.success = true ∧ decide (r.output ≠ "") = true := by simpa using hrp
  exact List.length_pos_of_mem (List.mem_filter.2 ⟨hrm, hrp'.1⟩)

/-- C6 (amended).  `success_rate` is successes over all evaluated users;
response time and cost are averaged over successes only and are zero with no
successes; the within-segment similarity is the off-diagonal average of the
collaborator's pairwise cosine matrix over the successful *non-empty* output
texts (line 129 collects only those), reported as `0` (not an error) with
fewer than two of them.  An empty successful output still counts in
`success_rate` and the averages but is excluded from the similarity pool.
The hypothesis is the collaborator contract: unit diagonal over the collected
(non-empty) texts. -/
theorem segment_aggregate_nonempty_spec (simM : List String → ℕ → ℕ → ℚ)
    (rs : List EvalRecord)
    (hdiag : ∀ i < (collectedOutputs rs).length, simM (collectedOutputs rs) i i = 1) :
    (aggregateMetric simM rs).success_rate
        = ((successRecords rs).length : ℚ) / (rs.length : ℚ)
    ∧ (0 < (successRecords rs).length →
        (aggregateMetric simM rs).avg_response_time
            = ((successRecords rs).map (·.response_time)).sum
              / ((successRecords rs).length : ℚ)
          ∧ (aggregateMetric simM rs).avg_cost
            = ((successRecords rs).map (·.cost)).sum / ((successRecords rs).length : ℚ))
    ∧ ((successRecords rs).length = 0 →
        (aggregateMetric simM rs).avg_response_time = 0
          ∧ (aggregateMetric simM rs).avg_cost = 0)
    ∧ ((collectedOutputs rs).length < 2 →
        (aggregateMetric simM rs).within_segment_similarity = 0)
    ∧ (2 ≤ (collectedOutputs rs).length →
        (aggregateMetric simM rs).within_segment_similarity
          = (∑ i in Finset.range (collectedOutputs rs).length,
              ∑ j in Finset.range (collectedOutputs rs).length,
                if i = j then 0 else simM (collectedOutputs rs) i j)
            / (((collectedOutputs rs).length : ℚ) * (((collectedOutputs rs).length : ℚ) - 1))) := by
  refine ⟨?_, ?_, ?_, ?_, ?_⟩
  · by_cases hs : 0 < (successRecords rs).length
    · simp [aggregateMetric, hs]
    · have hz : (successRecords rs).length = 0 := Nat.eq_zero_of_not_pos hs
      simp [aggregateMetric, hs, hz]
  · intro hs
    simp [aggregateMetric, hs]
  · intro hz
    simp [aggregateMetric, hz]
  · intro hlt
    by_cases hs : 0 < (successRecords rs).length
    · have hn2 : ¬ 1 < (collectedOutputs rs).length := by omega
      simp [aggregateMetric, hs, hn2]
    · simp [aggregateMetric, hs]
  · intro hge
    have hs : 0 < (successRecords rs).length :=
      collected_pos_succ_pos rs (by omega)
    have hn2 : 1 < (collectedOutputs rs).length := by omega
    have hexp : (aggregateMetric simM rs).within_segment_similarity
        = (matrixSum simM (collectedOutputs rs) - ((collectedOutputs rs).length : ℚ))
          / (((collectedOutputs rs).length : ℚ) * (((collectedOutputs rs).length : ℚ) - 1)) := by
      simp [aggregateMetric, hs, hn2]
    rw [hexp]
    congr 1
    set outs := collectedOutputs rs with houts
    set n := outs.length with hn
    have hsplit : matrixSum simM outs
        = (∑ i in Finset.range n, ∑ j in Finset.range n,
            if i = j then simM outs i j else 0)
          + (∑ i in Finset.range n, ∑ j in Finset.range n,
              if i = j then 0 else simM outs i j) := by
      rw [matrixSum, ← Finset.sum_add_distrib]
      apply Finset.sum_congr rfl
      intro i _
      rw [← Finset.sum_add_distrib]
      apply Finset.sum_congr rfl
      intro j _
      by_cases hij : i = j <;> simp [hij]
    have hdiagsum : (∑ i in Finset.range n, ∑ j in Finset.range n,
        if i = j then simM outs i j else 0) = (n : ℚ) := by
      have hrow : ∀ i ∈ Finset.range n,
          (∑ j in Finset.range n, if i = j then simM outs i j else 0) = 1 := by
        intro i hi
        rw [Finset.sum_ite_eq (Finset.range n) i (fun j => simM outs i j), if_pos hi]
        exact hdiag i (Finset.mem_range.1 hi)
      rw [Finset.sum_congr rfl hrow]
      simp
    rw [hsplit, hdiagsum]
    ring

/-- The within-segment similarity as the claim words it: the pairwise average
over all successful output texts (empty or not), excluding self-pairs, with 0
below two successful outputs.  Stated only to be compared against the code's
`aggregateMetric`. -/
def claimedWithinSimilarity (simM : List String → ℕ → ℕ → ℚ)
    (rs : List EvalRecord) : ℚ :=
  let outs := (successRecords rs).map (·.output)
  if 2 ≤ outs.length then
    (∑ i in Finset.range outs.length, ∑ j in Finset.range outs.length,
        if i = j then 0 else simM outs i j)
      / ((outs.length : ℚ) * ((outs.length : ℚ) - 1))
  else 0

/-- A cosine collaborator consistent with the TF-IDF vectorization on the
inputs below: identical non-empty texts have cosine 1, and any pair involving
an empty text has cosine 0 (the empty document vectorizes to the zero
vector). -/
def simTfidf : List String → ℕ → ℕ → ℚ := fun outs i j =>
  if outs.getD i "" ≠ "" ∧ outs.getD i "" = outs.getD j "" then 1 else 0

/-- Three successful evaluations, one of which produced empty output text
(reachable: the generation call succeeds and `str` of its content is ""). -/
def rsEmptySuccess : List EvalRecord :=
  [ { success := true, response_time := 1, cost := 1, output := "alpha" }
  , { success := true, response_time := 1, cost := 1, output := "alpha" }
  , { success := true, response_time := 1, cost := 1, output := "" } ]

/-- Counterexample to C6 as stated: with three successful outputs
`["alpha", "alpha", ""]` the code averages only over the two non-empty ones
(line 129 drops the empty), giving 1, while the claimed average over all
successful output texts is 1/3. -/
theorem segment_similarity_empty_success_cex :
    2 ≤ ((successRecords rsEmptySuccess).map (·.output)).length
    ∧ (aggregateMetric simTfidf rsEmptySuccess).within_segment_similarity = 1
    ∧ claimedWithinSimilarity simTfidf rsEmptySuccess = 1/3
    ∧ (1 : ℚ) ≠ 1/3 := by
  have hco : collectedOutputs rsEmptySuccess = ["alpha", "alpha"] := by decide
  have hso : (successRecords rsEmptySuccess).map (·.output)
      = ["alpha", "alpha", ""] := by decide
  refine ⟨by decide, ?_, ?_, by norm_num⟩
  · have hm : matrixSum simTfidf ["alpha", "alpha"] = 4 := by
      have e00 : simTfidf ["alpha", "alpha"] 0 0 = 1 := rfl
      have e01 : simTfidf ["alpha", "alpha"] 0 1 = 1 := rfl
      have e10 : simTfidf ["alpha", "alpha"] 1 0 = 1 := rfl
      have e11 : simTfidf ["alpha", "alpha"] 1 1 = 1 := rfl
      rw [matrixSum]
      norm_num [Finset.sum_range_succ, e00, e01, e10, e11]
    have hs : 0 < (successRecords rsEmptySuccess).length := by decide
    have hn2 : 1 < (collectedOutputs rsEmptySuccess).length := by decide
    have hexp : (aggregateMetric simTfidf rsEmptySuccess).within_segment_similarity
        = (matrixSum simTfidf (collectedOutputs rsEmptySuccess)
            - ((collectedOutputs rsEmptySuccess).length : ℚ))
          / (((collectedOutputs rsEmptySuccess).length : ℚ)
              * (((collectedOutputs rsEmptySuccess).length : ℚ) - 1)) := by
      simp [aggregateMetric, hs, hn2]
    rw [hexp, hco, hm]
    norm_num
  · have g01 : simTfidf ["alpha", "alpha", ""] 0 1 = 1 := rfl
    have g10 : simTfidf ["alpha", "alpha", ""] 1 0 = 1 := rfl
    have g02 : simTfidf ["alpha", "alpha", ""] 0 2 = 0 := rfl
    have g20 : simTfidf ["alpha", "alpha", ""] 2 0 = 0 := rfl
    have g12 : simTfidf ["alpha", "alpha", ""] 1 2 = 0 := rfl
    have g21 : simTfidf ["alpha", "alpha", ""] 2 1 = 0 := rfl
    simp only [claimedWithinSimilarity, hso]
    norm_num [Finset.sum_range_succ, g01, g10, g02, g20, g12, g21]

/-- A constant similarity collaborator (identical texts have cosine 1). -/
def simOne : List String → ℕ → ℕ → ℚ := fun _ _ _ => 1

/-- Two successes with distinct non-empty outputs and one failure. -/
def rsDemo : List EvalRecord :=
  [ { success := true, response_time := 2, cost := 3, output := "alpha" }
  , { success := true, response_time := 4, cost := 5, output := "beta" }
  , { success := false, response_time := 1, cost := 1, output := "" } ]

/-- Witness for C6 (amended) at a concrete record list and collaborator. -/
theorem segment_aggregate_nonempty_witness :
    (aggregateMetric simOne rsDemo).success_rate
        = ((successRecords rsDemo).length : ℚ) / (rsDemo.length : ℚ)
    ∧ (0 < (successRecords rsDemo).length →
        (aggregateMetric simOne rsDemo).avg_response_time
            = ((successRecords rsDemo).map (·.response_time)).sum
              / ((successRecords rsDemo).length : ℚ)
          ∧ (aggregateMetric simOne rsDemo).avg_cost
            = ((successRecords rsDemo).map (·.cost)).sum
              / ((successRecords rsDemo).length : ℚ))
    ∧ ((successRecords rsDemo).length = 0 →
        (aggregateMetric simOne rsDemo).avg_response_time = 0
          ∧ (aggregateMetric simOne rsDemo).avg_cost = 0)
    ∧ ((collectedOutputs rsDemo).length < 2 →
        (aggregateMetric simOne rsDemo).within_segment_similarity = 0)
    ∧ (2 ≤ (collectedOutputs rsDemo).length →
        (aggregateMetric simOne rsDemo).within_segment_similarity
          = (∑ i in Finset.range (collectedOutputs rsDemo).length,
              ∑ j in Finset.range (collectedOutputs rsDemo).length,
                if i = j then 0 else simOne (collectedOutputs rsDemo) i j)
            / (((collectedOutputs rsDemo).length : ℚ)
                * (((collectedOutputs rsDemo).length : ℚ) - 1))) :=
  segment_aggregate_nonempty_spec simOne rsDemo (fun _ _ => rfl)

/-! ## Best-approach selection per `(segment, component)` (lines 229-268) -/

def validOf (entries : List (String × SegmentMetric)) : List (String × SegmentMetric) :=
  entries.filter (fun e => decide (0 < e.2.success_rate))

def normTime : List (String × SegmentMetric) → ℚ
  | [] => 1
  | e :: es =>
    let mx := (es.map (fun a => a.2.avg_response_time)).foldl max e.2.avg_response_time
    if mx = 0 then 1 else mx

def normCost : List (String × SegmentMetric) → ℚ
  | [] => 1
  | e :: es =>
    let mx := (es.map (fun a => a.2.avg_cost)).foldl max e.2.avg_cost
    if mx = 0 then 1 else mx

/-- The weighted score of lines 262-267. -/
def scoreIn (v : List (String × SegmentMetric)) (sm : SegmentMetric) : ℚ :=
  sm.success_rate * 0.4 + (1 - sm.avg_response_time / normTime v) * 0.15
    + (1 - sm.within_segment_similarity) * 0.35 + (1 - sm.avg_cost / normCost v) * 0.1

def selectFromValid : List (String × SegmentMetric) → Option String
  | [] => none
  | [e] => some e.1
  | e :: e2 :: es => some (pyMax (fun a => scoreIn (e :: e2 :: es) a.2) e (e2 :: es)).1

/-- Lines 236-268: filter to approaches with positive success rate, handle
the none/single cases, otherwise take Python `max` (first maximum wins) of
the weighted score over the valid list. -/
def best_approaches_selection (entries : List (String × SegmentMetric)) : Option String :=
  selectFromValid (validOf entries)

/-- C5.  With exactly one qualifying approach it is chosen; with several the
chosen approach is the argmax of the weighted score, ties broken by registry
order (every earlier entry scores strictly less, every later entry at most as
much); and the selection is a pure function of its inputs. -/
theorem best_approaches_weighted_argmax (entries : List (String × SegmentMetric)) :
    (∀ e, validOf entries = [e] → best_approaches_selection entries = some e.1)
    ∧ (∀ e e2 es, validOf entries = e :: e2 :: es →
        ∃ c l1 l2, best_approaches_selection entries = some c.1
          ∧ e :: e2 :: es = l1 ++ c :: l2
          ∧ (∀ a ∈ l1, scoreIn (e :: e2 :: es) a.2 < scoreIn (e :: e2 :: es) c.2)
          ∧ (∀ a ∈ l2, scoreIn (e :: e2 :: es) a.2 ≤ scoreIn (e :: e2 :: es) c.2)
          ∧ (∀ a ∈ e :: e2 :: es, scoreIn (e :: e2 :: es) a.2 ≤ scoreIn (e :: e2 :: es) c.2))
    ∧ (∀ entries2, entries = entries2 →
        best_approaches_selection entries = best_approaches_selection entries2) := by
  refine ⟨?_, ?_, ?_⟩
  · intro e hv
    rw [best_approaches_selection, hv]
    rfl
  · intro e e2 es hv
    rw [best_approaches_selection, hv]
    rcases pyMax_spec (fun a => scoreIn (e :: e2 :: es) a.2) (e2 :: es) e with
      ⟨l1, l2, hdec, h1, h2⟩
    refine ⟨pyMax (fun a => scoreIn (e :: e2 :: es) a.2) e (e2 :: es), l1, l2,
      ?_, hdec, h1, h2, ?_⟩
    · rw [selectFromValid]
    · intro a ha
      rw [hdec] at ha
      rcases List.mem_append.1 ha with ha1 | ha2
      · exact le_of_lt (h1 a ha1)
      rcases List.mem_cons.1 ha2 with rfl | ha3
      · exact le_refl _
      · exact h2 a ha3
  · intro entries2 h
    rw [h]

def metricHigh : SegmentMetric :=
  { success_rate := 1, avg_response_time := 2, avg_cost := 4
    within_segment_similarity := 1 }

def metricLow : SegmentMetric :=
  { success_rate := 1, avg_response_time := 1, avg_cost := 1
    within_segment_similarity := 0 }

def metricZero : SegmentMetric :=
  { success_rate := 0, avg_response_time := 0, avg_cost := 0
    within_segment_similarity := 0 }

def entriesDemo : List (String × SegmentMetric) :=
  [("zero_shot", metricHigh), ("few_shot", metricLow), ("chain_of_thought", metricZero)]

/-- Witness for C5 with two qualifying approaches. -/
theorem best_approaches_weighted_argmax_witness :
    ∃ c l1 l2, best_approaches_selection entriesDemo = some c.1
      ∧ [("zero_shot", metricHigh), ("few_shot", metricLow)] = l1 ++ c :: l2
      ∧ (∀ a ∈ l1, scoreIn [("zero_shot", metricHigh), ("few_shot", metricLow)] a.2
          < scoreIn [("zero_shot", metricHigh), ("few_shot", metricLow)] c.2)
      ∧ (∀ a ∈ l2, scoreIn [("zero_shot", metricHigh), ("few_shot", metricLow)] a.2
          ≤ scoreIn [("zero_shot", metricHigh), ("few_shot", metricLow)] c.2)
      ∧ (∀ a ∈ [("zero_shot", metricHigh), ("few_shot", metricLow)],
          scoreIn [("zero_shot", metricHigh), ("few_shot", metricLow)] a.2
            ≤ scoreIn [("zero_shot", metricHigh), ("few_shot", metricLow)] c.2) :=
  (best_approaches_weighted_argmax entriesDemo).2.1
    ("zero_shot", metricHigh) ("few_shot", metricLow) [] (by decide)

end Maya
